import Mathlib

/-!
Verification of `src/main.py` (mora-tools): a utility that recursively
searches a directory tree for files with a given extension
(`find_files_by_extension`) and copies them flat into a destination
directory (`copy_files_to_directory`).

The embedding models:
* a directory tree as a mutual inductive `FSTree`/`Forest`;
* `pathlib.Path.rglob(pat)` (i.e. `glob("**/" + pat)`) as `rglobT`:
  for each directory in pre-order (the root first, then each
  subdirectory recursively, siblings in listing order) it emits the
  directory's children whose name matches `pat`.  Character classes
  (`[...]`) of `fnmatch` and `pathlib`'s splitting of patterns on `/`
  are not modelled; `*`, `?` and literal characters are, so the model
  coincides with `pathlib` exactly for patterns free of `[` and `/`,
  and every theorem quantifying over extensions restricts them to
  that region (`plainExtChars`);
* `str.lstrip(".")` as `pyLstripDot` (removes every leading dot);
* `copy_files_to_directory` over an abstract destination-directory
  state, with an explicit exception channel (`Except PyExc`) so that
  the `try/except` structure of the Python code is visible: faults of
  `mkdir` and of `shutil.copy2` are injected through a `CopyEnv`
  oracle.
-/

mutual
/-- A node of the local filesystem: a plain file or a directory with an
ordered list of children (the order models native enumeration order). -/
inductive FSTree where
  | file (name : String)
  | dir (name : String) (children : Forest)
  deriving Repr, DecidableEq

inductive Forest where
  | nil
  | cons (hd : FSTree) (tl : Forest)
  deriving Repr, DecidableEq
end

/-- The entry's own name (last path component). -/
def FSTree.name : FSTree → String
  | .file n => n
  | .dir n _ => n

/-- `Path.is_dir()` for an existing entry. -/
def FSTree.isDir : FSTree → Bool
  | .file _ => false
  | .dir _ _ => true

/-- `fnmatch`-style matching of a pattern against a single file name,
both as character lists: `*` matches any (possibly empty) run of
characters, `?` matches exactly one character, anything else matches
itself.  Character classes (`[...]`) are not modelled: a `[` is
treated as a literal character, so the model coincides with `fnmatch`
exactly on patterns free of `[`; theorems that quantify over
extensions restrict them accordingly (`plainExtChars`). -/
def globMatch : List Char → List Char → Bool
  | [], cs => cs.isEmpty
  | p :: ps, cs =>
    if p = '*' then
      match cs with
      | [] => globMatch ps []
      | _ :: cs' => globMatch ps cs || globMatch (p :: ps) cs'
    else
      match cs with
      | [] => false
      | c :: cs' => (p = '?' || p = c) && globMatch ps cs'
  termination_by ps cs => (ps.length, cs.length)

/-- `extension.lstrip(".")`: Python's `str.lstrip` removes **every**
leading occurrence of the given character, not just one. -/
def pyLstripDot (s : String) : String :=
  ⟨s.data.dropWhile (· = '.')⟩

/-- The children of a forest whose name matches `pat`, each as a
one-component relative path, in listing order. -/
def matchChildren (pat : List Char) : Forest → List (List String)
  | .nil => []
  | .cons c rest =>
      (if globMatch pat c.name.data then [[c.name]] else []) ++ matchChildren pat rest

mutual
/-- `root.rglob(pat)` on a tree, as relative paths (component lists):
visit each directory in pre-order starting with the root itself and
emit its children (files and subdirectories alike) whose name matches
`pat`, in listing order.  A plain file has no children, so `rglob`
on it yields nothing; the root itself is never yielded.  `pat` is
matched against a single name; `pathlib` would first split a pattern
on `/` into components, so the model coincides with `pathlib` exactly
on patterns free of `/` — theorems that quantify over extensions
restrict them accordingly (`plainExtChars`). -/
def rglobT (pat : List Char) : FSTree → List (List String)
  | .file _ => []
  | .dir _ f => matchChildren pat f ++ rglobF pat f

/-- The recursion of `rglobT` into each subdirectory of a forest,
prefixing results with the child's name. -/
def rglobF (pat : List Char) : Forest → List (List String)
  | .nil => []
  | .cons c rest => (rglobT pat c).map (c.name :: ·) ++ rglobF pat rest
end

/-- The two exceptions `find_files_by_extension` raises, each carrying
the offending root path (the Python messages interpolate the path). -/
inductive FindError where
  | fileNotFoundError (path : String)
  | notADirectoryError (path : String)
  deriving Repr, DecidableEq

/-- `find_files_by_extension(root_path, extension)`.

`rootPath` is the path string the caller passed; `root` is what the
filesystem holds at that path (`none`: nothing exists there).  The
function checks existence, then `is_dir`, strips leading dots from the
extension, builds the pattern `*.{extension}` and runs the recursive
glob. -/
def find_files_by_extension (rootPath : String) (root : Option FSTree)
    (extension : String := "flac") : Except FindError (List (List String)) :=
  match root with
  | none => .error (.fileNotFoundError rootPath)
  | some t =>
    if !t.isDir then
      .error (.notADirectoryError rootPath)
    else
      let extension2 := pyLstripDot extension
      let search_pattern := "*." ++ extension2
      .ok (rglobT search_pattern.data t)

mutual
/-- All proper descendants of an entry, as relative paths, one per
entry (files and directories alike), in depth-first order. -/
def FSTree.descPaths : FSTree → List (List String)
  | .file _ => []
  | .dir _ f => Forest.descPaths f

def Forest.descPaths : Forest → List (List String)
  | .nil => []
  | .cons c rest =>
      [c.name] :: ((FSTree.descPaths c).map (c.name :: ·) ++ Forest.descPaths rest)
end

mutual
/-- Resolve a relative path inside an entry (first sibling with the
name wins, as on a real filesystem where sibling names are unique). -/
def FSTree.resolve : FSTree → List String → Option FSTree
  | t, [] => some t
  | .file _, _ :: _ => none
  | .dir _ f, n :: rest => Forest.resolve f n rest

def Forest.resolve : Forest → String → List String → Option FSTree
  | .nil, _, _ => none
  | .cons c cs, n, rest =>
      if c.name = n then FSTree.resolve c rest else Forest.resolve cs n rest
end

/-- Last component of a relative path (`pathlib.Path.name`). -/
def pathName (p : List String) : String :=
  (p.getLast?).getD ""

/-- Fault oracle for `copy_files_to_directory`: whether creating the
destination directory would fail (permissions, disk, ...), and which
source paths `shutil.copy2` would fail on (missing source, permission
denied, disk full, ...). -/
structure CopyEnv where
  mkdirFails : Bool
  copy2Fails : List String → Bool

/-- The destination directory's state: whether it exists, and for each
file name in it, the source path whose copy produced it (`none`: no
such file). -/
structure DestState where
  destExists : Bool
  contents : String → Option (List String)

/-- Exceptions arising inside `copy_files_to_directory`. -/
inductive PyExc where
  | mkdirError
  | copyError (src : List String)

/-- `destination_dir.mkdir(parents=True, exist_ok=True)`: succeeds
silently when the destination already exists; otherwise creates it
(parents included, collapsed into the single `destExists` flag) unless
the environment makes creation fail. -/
def mkdirParents (env : CopyEnv) (st : DestState) : Except PyExc DestState :=
  if st.destExists then .ok st
  else if env.mkdirFails then .error .mkdirError
  else .ok { st with destExists := true }

/-- `shutil.copy2(src, destination_dir / src.name)`: on success the
destination now holds, under the source's basename, the content of
that source (overwriting whatever was there). -/
def copy2 (env : CopyEnv) (st : DestState) (src : List String) : Except PyExc DestState :=
  if env.copy2Fails src then .error (.copyError src)
  else .ok { st with contents := fun n => if n = pathName src then some src else st.contents n }

/-- The `for src_path in source_files` loop: each item's `copy2` is
wrapped in its own `try/except`, a failure increments `error_count`
and the loop continues; a success increments `copied_count`. -/
def copyLoop (env : CopyEnv) : List (List String) → DestState → Nat → Nat →
    DestState × Nat × Nat
  | [], st, copied_count, error_count => (st, copied_count, error_count)
  | src :: rest, st, copied_count, error_count =>
    match copy2 env st src with
    | .ok st' => copyLoop env rest st' (copied_count + 1) error_count
    | .error _ => copyLoop env rest st copied_count (error_count + 1)

/-- The body of the outer `try` block of `copy_files_to_directory`:
`mkdir` (which may raise) followed by the per-item loop (which never
raises) and the summary print of the final tallies. -/
def copyTryBody (env : CopyEnv) (st : DestState) (source_files : List (List String)) :
    Except PyExc (DestState × Nat × Nat) :=
  match mkdirParents env st with
  | .error e => .error e
  | .ok st1 => .ok (copyLoop env source_files st1 0 0)

/-- The observable outcome of a run of `copy_files_to_directory` (the
Python function returns `None`; what it reports is printed):
`noSources` is the early-return message for an empty list,
`completed copied errs` the final summary line with its tallies, and
`catastrophic e` the outer `except` clause's error message. -/
inductive CopyOutcome where
  | noSources
  | completed (copied_count error_count : Nat)
  | catastrophic (e : PyExc)

/-- The tally of successful copies an outcome reports (the empty-list
message reports that nothing was copied; the outer error message
reports no tally, i.e. no successful copies were announced). -/
def CopyOutcome.copiedCount : CopyOutcome → Nat
  | .noSources => 0
  | .completed c _ => c
  | .catastrophic _ => 0

/-- The tally of failed copies an outcome reports. -/
def CopyOutcome.errorCount : CopyOutcome → Nat
  | .noSources => 0
  | .completed _ e => e
  | .catastrophic _ => 0

/-- `copy_files_to_directory(destination_dir, source_files)`.

The result is `Except PyExc` to make the exception channel of the
Python caller visible: a `.error` result would mean an exception
escapes to the caller.  The function returns early on an empty list;
otherwise it runs the `try` block and its `except Exception` clause
turns any exception into a printed message (`catastrophic`), so every
branch ends in `.ok`. -/
def copy_files_to_directory (env : CopyEnv) (st : DestState)
    (source_files : List (List String)) : Except PyExc (CopyOutcome × DestState) :=
  if source_files.isEmpty then .ok (.noSources, st)
  else
    match copyTryBody env st source_files with
    | .ok (st', copied_count, error_count) => .ok (.completed copied_count error_count, st')
    | .error e => .ok (.catastrophic e, st)

/-! ### Lemmas about glob matching -/

/-- Patterns (and extensions) free of the `*` and `?` metacharacters. -/
def plainChars (ps : List Char) : Bool :=
  ps.all (fun c => !(c = '*' || c = '?'))

/-- Extensions on which the glob model coincides exactly with
`pathlib`/`fnmatch`: free of the metacharacters `*`, `?` and `[`
(no wildcard or character-class interpretation) and of the path
separator `/` (no pattern splitting into components). -/
def plainExtChars (ps : List Char) : Bool :=
  ps.all (fun c => !(c = '*' || c = '?' || c = '[' || c = '/'))

theorem plainChars_of_plainExtChars {ps : List Char}
    (h : plainExtChars ps = true) : plainChars ps = true := by
  simp only [plainExtChars, List.all_eq_true, Bool.not_eq_true', Bool.or_eq_false_iff,
    decide_eq_false_iff_not] at h
  simp only [plainChars, List.all_eq_true, Bool.not_eq_true', Bool.or_eq_false_iff,
    decide_eq_false_iff_not]
  intro c hc
  obtain ⟨⟨⟨h1, h2⟩, _⟩, _⟩ := h c hc
  exact ⟨h1, h2⟩

theorem globMatch_plain (ps : List Char) (hp : plainChars ps = true) :
    ∀ cs, globMatch ps cs = true ↔ ps = cs := by
  induction ps with
  | nil => intro cs; cases cs <;> simp [globMatch]
  | cons p ps ih =>
    intro cs
    simp only [plainChars, List.all_cons, Bool.and_eq_true, Bool.not_eq_true',
      Bool.or_eq_false_iff, decide_eq_false_iff_not] at hp
    obtain ⟨⟨hstar, hq⟩, hps⟩ := hp
    have ih' := ih hps
    cases cs with
    | nil => simp [globMatch, hstar]
    | cons c cs =>
      simp [globMatch, hstar, hq, ih' cs, List.cons.injEq]

theorem globMatch_star (ps : List Char) (hp : plainChars ps = true) :
    ∀ cs, globMatch ('*' :: ps) cs = true ↔ ps <:+ cs := by
  intro cs
  induction cs with
  | nil =>
    simp [globMatch, globMatch_plain ps hp, List.suffix_nil]
  | cons c cs ih =>
    simp [globMatch, globMatch_plain ps hp, ih, List.suffix_cons_iff]

/-! ### Lemmas about paths and `rglob` -/

theorem pathName_single (n : String) : pathName [n] = n := rfl

theorem pathName_cons_of_ne_nil (a : String) (q : List String) (hq : q ≠ []) :
    pathName (a :: q) = pathName q := by
  cases q with
  | nil => exact absurd rfl hq
  | cons b q => simp [pathName, List.getLast?_cons_cons]

mutual
theorem descPathsTree_ne_nil :
    ∀ (t : FSTree) (p : List String), p ∈ FSTree.descPaths t → p ≠ []
  | .file _, p, hp => by simp [FSTree.descPaths] at hp
  | .dir _ f, p, hp =>
      descPathsForest_ne_nil f p (by simpa [FSTree.descPaths] using hp)

theorem descPathsForest_ne_nil :
    ∀ (f : Forest) (p : List String), p ∈ Forest.descPaths f → p ≠ []
  | .nil, p, hp => by simp [Forest.descPaths] at hp
  | .cons c rest, p, hp => by
    simp only [Forest.descPaths, List.mem_cons, List.mem_append, List.mem_map] at hp
    rcases hp with h | ⟨q, _, h⟩ | h
    · subst h; simp
    · subst h; simp
    · exact descPathsForest_ne_nil rest p h
end

mutual
theorem mem_rglobT (pat : List Char) :
    ∀ (t : FSTree) (p : List String),
      p ∈ rglobT pat t ↔
        p ∈ FSTree.descPaths t ∧ globMatch pat (pathName p).data = true
  | .file _, p => by simp [rglobT, FSTree.descPaths]
  | .dir _ f, p => by
    simpa [rglobT, FSTree.descPaths] using mem_rglobForest pat f p

theorem mem_rglobForest (pat : List Char) :
    ∀ (f : Forest) (p : List String),
      p ∈ matchChildren pat f ++ rglobF pat f ↔
        p ∈ Forest.descPaths f ∧ globMatch pat (pathName p).data = true
  | .nil, p => by simp [matchChildren, rglobF, Forest.descPaths]
  | .cons c rest, p => by
    have hc := mem_rglobT pat c
    have hf := mem_rglobForest pat rest
    simp only [matchChildren, rglobF, Forest.descPaths, List.mem_append, List.mem_cons,
      List.mem_map] at *
    constructor
    · rintro (h | h | h)
      · rcases h with h | h
        · by_cases hm : globMatch pat c.name.data = true
          · simp [hm] at h
            subst h
            exact ⟨Or.inl rfl, by simpa [pathName_single] using hm⟩
          · simp [hm] at h
        · rcases (hf p).mp (Or.inl h) with ⟨hmem, hglob⟩
          exact ⟨Or.inr (Or.inr hmem), hglob⟩
      · rcases h with ⟨q, hq, rfl⟩
        rcases (hc q).mp hq with ⟨hmem, hglob⟩
        have hne : q ≠ [] := descPathsTree_ne_nil c q hmem
        refine ⟨Or.inr (Or.inl ⟨q, hmem, rfl⟩), ?_⟩
        rwa [pathName_cons_of_ne_nil _ _ hne]
      · rcases (hf p).mp (Or.inr h) with ⟨hmem, hglob⟩
        exact ⟨Or.inr (Or.inr hmem), hglob⟩
    · rintro ⟨hmem, hglob⟩
      rcases hmem with h | ⟨q, hmem, rfl⟩ | h
      · subst h
        refine Or.inl (Or.inl ?_)
        simp [pathName_single] at hglob
        simp [hglob]
      · have hne : q ≠ [] := descPathsTree_ne_nil c q hmem
        rw [pathName_cons_of_ne_nil _ _ hne] at hglob
        exact Or.inr (Or.inl ⟨q, (hc q).mpr ⟨hmem, hglob⟩, rfl⟩)
      · rcases (hf p).mpr ⟨h, hglob⟩ with h' | h'
        · exact Or.inl (Or.inr h')
        · exact Or.inr (Or.inr h')
end

/-! ### Lemmas about the copy loop -/

/-- Number of sources the environment lets `copy2` succeed on. -/
def successCount (env : CopyEnv) (srcs : List (List String)) : Nat :=
  (srcs.filter (fun s => !env.copy2Fails s)).length

/-- Number of sources the environment makes `copy2` fail on. -/
def failureCount (env : CopyEnv) (srcs : List (List String)) : Nat :=
  (srcs.filter (fun s => env.copy2Fails s)).length

/-- First-alternative choice on options. -/
def orElseOpt {α : Type} (a b : Option α) : Option α :=
  match a with
  | some x => some x
  | none => b

theorem orElseOpt_none_right {α : Type} (a : Option α) : orElseOpt a none = a := by
  cases a <;> rfl

theorem orElseOpt_assoc {α : Type} (a b c : Option α) :
    orElseOpt (orElseOpt a b) c = orElseOpt a (orElseOpt b c) := by
  cases a <;> rfl

/-- The last element of `srcs` whose basename is `n` and whose copy
succeeds, if any: the source whose content the destination file `n`
holds after the loop. -/
def lastWrite (env : CopyEnv) : List (List String) → String → Option (List String)
  | [], _ => none
  | src :: rest, n =>
      orElseOpt (lastWrite env rest n)
        (if pathName src = n ∧ env.copy2Fails src = false then some src else none)

theorem successCount_cons_of_fail {env : CopyEnv} {src : List String}
    (rest : List (List String)) (h : env.copy2Fails src = true) :
    successCount env (src :: rest) = successCount env rest := by
  simp [successCount, List.filter_cons, h]

theorem successCount_cons_of_ok {env : CopyEnv} {src : List String}
    (rest : List (List String)) (h : env.copy2Fails src = false) :
    successCount env (src :: rest) = successCount env rest + 1 := by
  simp [successCount, List.filter_cons, h, Nat.add_comm]

theorem failureCount_cons_of_fail {env : CopyEnv} {src : List String}
    (rest : List (List String)) (h : env.copy2Fails src = true) :
    failureCount env (src :: rest) = failureCount env rest + 1 := by
  simp [failureCount, List.filter_cons, h, Nat.add_comm]

theorem failureCount_cons_of_ok {env : CopyEnv} {src : List String}
    (rest : List (List String)) (h : env.copy2Fails src = false) :
    failureCount env (src :: rest) = failureCount env rest := by
  simp [failureCount, List.filter_cons, h]

theorem copyLoop_counts (env : CopyEnv) :
    ∀ (srcs : List (List String)) (st : DestState) (c e : Nat),
      (copyLoop env srcs st c e).2.1 = c + successCount env srcs ∧
      (copyLoop env srcs st c e).2.2 = e + failureCount env srcs := by
  intro srcs
  induction srcs with
  | nil => intro st c e; simp [copyLoop, successCount, failureCount]
  | cons src rest ih =>
    intro st c e
    cases hfail : env.copy2Fails src with
    | true =>
      have h1 := ih st c (e + 1)
      simp only [copyLoop, copy2, hfail, reduceIte]
      rw [successCount_cons_of_fail rest hfail, failureCount_cons_of_fail rest hfail]
      exact ⟨h1.1, by rw [h1.2]; omega⟩
    | false =>
      simp only [copyLoop, copy2, hfail, Bool.false_eq_true, reduceIte]
      rw [successCount_cons_of_ok rest hfail, failureCount_cons_of_ok rest hfail]
      exact ⟨by rw [(ih _ (c + 1) e).1]; omega, (ih _ (c + 1) e).2⟩

theorem copyLoop_destExists (env : CopyEnv) :
    ∀ (srcs : List (List String)) (st : DestState) (c e : Nat),
      (copyLoop env srcs st c e).1.destExists = st.destExists := by
  intro srcs
  induction srcs with
  | nil => intro st c e; simp [copyLoop]
  | cons src rest ih =>
    intro st c e
    by_cases hfail : env.copy2Fails src = true <;>
      simp [copyLoop, copy2, hfail, ih]

theorem copyLoop_contents (env : CopyEnv) :
    ∀ (srcs : List (List String)) (st : DestState) (c e : Nat) (n : String),
      (copyLoop env srcs st c e).1.contents n =
        orElseOpt (lastWrite env srcs n) (st.contents n) := by
  intro srcs
  induction srcs with
  | nil => intro st c e n; simp [copyLoop, lastWrite, orElseOpt]
  | cons src rest ih =>
    intro st c e n
    by_cases hfail : env.copy2Fails src = true
    · simp only [copyLoop, copy2, hfail, reduceIte]
      rw [ih]
      have hlw : lastWrite env (src :: rest) n = lastWrite env rest n := by
        simp [lastWrite, hfail, orElseOpt_none_right]
      rw [hlw]
    · have hfail' : env.copy2Fails src = false := by
        cases h : env.copy2Fails src
        · rfl
        · exact absurd h hfail
      simp only [copyLoop, copy2, hfail', Bool.false_eq_true, reduceIte]
      rw [ih]
      simp only [lastWrite, hfail', eq_self_iff_true, and_true]
      rw [orElseOpt_assoc]
      congr 1
      by_cases hn : pathName src = n
      · simp [hn, orElseOpt]
      · have hn' : ¬(n = pathName src) := fun h => hn h.symm
        simp [hn, hn', orElseOpt]

theorem lastWrite_append (env : CopyEnv) (n : String) :
    ∀ (l1 l2 : List (List String)),
      lastWrite env (l1 ++ l2) n = orElseOpt (lastWrite env l2 n) (lastWrite env l1 n) := by
  intro l1 l2
  induction l1 with
  | nil => simp [lastWrite, orElseOpt_none_right]
  | cons src rest ih =>
    simp only [List.cons_append, lastWrite, List.append_eq, ih, orElseOpt_assoc]

theorem lastWrite_none_of_all_fail (env : CopyEnv) (n : String) :
    ∀ (l : List (List String)),
      (∀ z ∈ l, pathName z = n → env.copy2Fails z = true) →
      lastWrite env l n = none := by
  intro l
  induction l with
  | nil => intro _; rfl
  | cons src rest ih =>
    intro h
    have hrest := ih (fun z hz => h z (List.mem_cons_of_mem _ hz))
    simp only [lastWrite, hrest, orElseOpt]
    by_cases hn : pathName src = n
    · have := h src (List.mem_cons_self _ _) hn
      simp [hn, this]
    · simp [hn]

theorem lastWrite_some_spec (env : CopyEnv) (n : String) :
    ∀ (l : List (List String)) (s : List String),
      lastWrite env l n = some s →
      pathName s = n ∧ env.copy2Fails s = false ∧ s ∈ l := by
  intro l
  induction l with
  | nil => intro s h; simp [lastWrite] at h
  | cons src rest ih =>
    intro s h
    simp only [lastWrite] at h
    cases hr : lastWrite env rest n with
    | some s2 =>
      rw [hr] at h
      simp only [orElseOpt] at h
      obtain rfl : s2 = s := by simpa using h
      obtain ⟨h1, h2, h3⟩ := ih _ hr
      exact ⟨h1, h2, List.mem_cons_of_mem _ h3⟩
    | none =>
      rw [hr] at h
      simp only [orElseOpt] at h
      by_cases hc : pathName src = n ∧ env.copy2Fails src = false
      · rw [if_pos hc] at h
        obtain rfl : src = s := by simpa using h
        exact ⟨hc.1, hc.2, List.mem_cons_self _ _⟩
      · rw [if_neg hc] at h
        simp at h

theorem lastWrite_isSome_of_mem (env : CopyEnv) (n : String) :
    ∀ (l : List (List String)) (src : List String),
      src ∈ l → pathName src = n → env.copy2Fails src = false →
      ∃ s, lastWrite env l n = some s := by
  intro l
  induction l with
  | nil => intro src h _ _; simp at h
  | cons hd rest ih =>
    intro src hmem hn hok
    simp only [lastWrite]
    cases hr : lastWrite env rest n with
    | some s2 => exact ⟨s2, rfl⟩
    | none =>
      rcases List.mem_cons.mp hmem with rfl | hmem2
      · refine ⟨src, ?_⟩
        simp [orElseOpt, hn, hok]
      · obtain ⟨s2, hs2⟩ := ih src hmem2 hn hok
        rw [hs2] at hr
        exact absurd hr (by simp)

/-- `(l.dropWhile p).head?`, when present, fails `p`. -/
theorem dropWhile_head?_false {α : Type} {p : α → Bool} :
    ∀ {l : List α} {c : α}, (l.dropWhile p).head? = some c → p c = false := by
  intro l
  induction l with
  | nil => intro c hc; simp at hc
  | cons a l ih =>
    intro c hc
    rw [List.dropWhile_cons] at hc
    split at hc
    · exact ih hc
    · next h =>
      simp only [List.head?_cons, Option.some.injEq] at hc
      subst hc
      exact Bool.not_eq_true _ ▸ eq_false_of_ne_true h

/-! ### Concrete trees for counterexamples and witnesses -/

/-- A root whose children are a directory named `d.flac` and a file
named `x.flac`. -/
def exTreeDir : FSTree :=
  .dir "root" (.cons (.dir "d.flac" .nil) (.cons (.file "x.flac") .nil))

/-- A root holding the single file `y.flac`. -/
def exTreeY : FSTree := .dir "r" (.cons (.file "y.flac") .nil)

/-- A root holding the single file `x.flac`. -/
def exTreeX : FSTree := .dir "r" (.cons (.file "x.flac") .nil)

/-- A root holding the single file `x.a`. -/
def exTreeA : FSTree := .dir "r" (.cons (.file "x.a") .nil)

/-- Modelled from the claim's words, for comparison with the code's
`pyLstripDot`: remove exactly one leading dot if one is present, leave
the string unchanged otherwise. -/
def stripOneLeadingDot (s : String) : String :=
  match s.data with
  | '.' :: rest => ⟨rest⟩
  | _ => s

/-! ### Claim theorems: the Finder -/

/-- C5: `find` on a non-existent root fails with the file-not-found
error carrying the root path, and on an existing root that is a plain
file fails with the not-a-directory error carrying the root path,
whatever the extension — so the validation happens before any search. -/
theorem find_validation_errors :
    (∀ (R E : String),
      find_files_by_extension R none E = .error (.fileNotFoundError R)) ∧
    (∀ (R nm E : String),
      find_files_by_extension R (some (.file nm)) E = .error (.notADirectoryError R)) :=
  ⟨fun _ _ => rfl, fun _ _ _ => rfl⟩

/-- C4: prefixing the extension with a single dot never changes the
result of `find`, for every root and extension. -/
theorem find_leading_dot_equivalence :
    ∀ (R : String) (root : Option FSTree) (E : String),
      find_files_by_extension R root ("." ++ E) = find_files_by_extension R root E := by
  intro R root E
  have h : pyLstripDot ("." ++ E) = pyLstripDot E := rfl
  cases root with
  | none => rfl
  | some t => simp only [find_files_by_extension, h]

/-- C3 counterexample: on extension `..flac` the code strips **both**
leading dots (pattern `*.flac`, which matches `y.flac`), while the
claimed remove-exactly-one-dot normalization would give `.flac`
(pattern `*..flac`, which matches nothing in the same tree). -/
theorem find_not_single_dot_normalization :
    pyLstripDot "..flac" = "flac" ∧
    stripOneLeadingDot "..flac" = ".flac" ∧
    find_files_by_extension "r" (some exTreeY) "..flac" = .ok [["y.flac"]] ∧
    rglobT ("*." ++ stripOneLeadingDot "..flac").data exTreeY = [] := by
  refine ⟨by simp [pyLstripDot], by simp [stripOneLeadingDot], ?_, ?_⟩
  · simp [find_files_by_extension, exTreeY, FSTree.isDir, pyLstripDot, rglobT, rglobF,
      matchChildren, globMatch, FSTree.name]
  · simp [exTreeY, stripOneLeadingDot, rglobT, rglobF, matchChildren, globMatch, FSTree.name]

/-- C3 amended: `find` normalizes the extension by removing **all**
leading dots: the normalized extension is a suffix of E obtained by
dropping a (possibly empty) run of leading dots, it has no leading dot
left, and `find` behaves on E exactly as on the normalized form. -/
theorem find_normalizes_by_removing_all_leading_dots :
    ∀ E : String,
      (∃ k, E.data = List.replicate k '.' ++ (pyLstripDot E).data) ∧
      (∀ c, (pyLstripDot E).data.head? = some c → c ≠ '.') ∧
      (∀ (R : String) (root : Option FSTree),
        find_files_by_extension R root E = find_files_by_extension R root (pyLstripDot E)) := by
  intro E
  refine ⟨⟨(E.data.takeWhile (· = '.')).length, ?_⟩, ?_, ?_⟩
  · conv_lhs => rw [← List.takeWhile_append_dropWhile (p := (· = '.')) (l := E.data)]
    congr 1
    apply List.eq_replicate_of_mem
    intro b hb
    have := List.mem_takeWhile_imp hb
    simpa using this
  · intro c hc
    have hc2 : (E.data.dropWhile (fun ch => decide (ch = '.'))).head? = some c := hc
    have h := dropWhile_head?_false hc2
    simpa using h
  · intro R root
    have h : pyLstripDot (pyLstripDot E) = pyLstripDot E :=
      congrArg (fun l => (⟨l⟩ : String)) (List.dropWhile_idempotent _ _)
    cases root with
    | none => rfl
    | some t => simp only [find_files_by_extension, h]

/-- C2 counterexample, refuting the claim on two independent points.
(i) `rglob` matches by **name** only, so a directory whose name ends
in `.flac` is returned as well — the returned sequence does not
exclude directories: in `exTreeDir` the result contains the path
`d.flac`, which resolves to a directory.  (ii) For an extension
containing a glob metacharacter the name-ends-with-`.<E>` reading
fails, because the pattern `*.<E>` is interpreted by glob: with
E = `*` the file `x.flac` is returned although its name does not end
with the two characters `.*`, and with E = `?` the file `x.a` is
returned although its name does not end with `.?`. -/
theorem find_includes_directory_and_wildcard_matches :
    (find_files_by_extension "root" (some exTreeDir) "flac" =
        .ok [["d.flac"], ["x.flac"]] ∧
      (FSTree.resolve exTreeDir ["d.flac"]).map FSTree.isDir = some true) ∧
    (find_files_by_extension "r" (some exTreeX) "*" = .ok [["x.flac"]] ∧
      ¬ ("." ++ pyLstripDot "*").data <:+ (pathName ["x.flac"]).data) ∧
    (find_files_by_extension "r" (some exTreeA) "?" = .ok [["x.a"]] ∧
      ¬ ("." ++ pyLstripDot "?").data <:+ (pathName ["x.a"]).data) := by
  refine ⟨⟨?_, ?_⟩, ⟨?_, ?_⟩, ⟨?_, ?_⟩⟩
  · simp [find_files_by_extension, exTreeDir, FSTree.isDir, pyLstripDot, rglobT, rglobF,
      matchChildren, globMatch, FSTree.name]
  · simp [exTreeDir, FSTree.resolve, Forest.resolve, FSTree.name, FSTree.isDir]
  · simp [find_files_by_extension, exTreeX, FSTree.isDir, pyLstripDot, rglobT, rglobF,
      matchChildren, globMatch, FSTree.name]
  · decide
  · simp [find_files_by_extension, exTreeA, FSTree.isDir, pyLstripDot, rglobT, rglobF,
      matchChildren, globMatch, FSTree.name]
  · decide

/-- C2 amended: for a directory root and an extension free of the
glob metacharacters `*`, `?`, `[` and of the path separator `/`
(the region forced out by the counterexample's wildcard instances and
by fnmatch's class and component interpretation), `find` returns
exactly the paths of the proper descendants of the root — files
**and directories** alike — whose name ends with `.` followed by the
dot-stripped extension. -/
theorem find_exactly_matching_descendant_paths (rootPath nm : String) (f : Forest)
    (E : String) (hE : plainExtChars E.data = true) :
    ∃ l, find_files_by_extension rootPath (some (.dir nm f)) E = .ok l ∧
      ∀ p, p ∈ l ↔
        p ∈ FSTree.descPaths (.dir nm f) ∧
          ("." ++ pyLstripDot E).data <:+ (pathName p).data := by
  have hE2 : plainChars E.data = true := plainChars_of_plainExtChars hE
  refine ⟨_, rfl, ?_⟩
  intro p
  have hsub : ∀ c ∈ (pyLstripDot E).data, c ∈ E.data := by
    intro c hc
    exact List.dropWhile_subset _ hc
  have hplain : plainChars ('.' :: (pyLstripDot E).data) = true := by
    simp only [plainChars, List.all_cons, Bool.and_eq_true]
    refine ⟨by decide, ?_⟩
    simp only [plainChars, List.all_eq_true] at hE2 ⊢
    exact fun c hc => hE2 c (hsub c hc)
  have hpat : ("*." ++ pyLstripDot E).data = '*' :: '.' :: (pyLstripDot E).data := rfl
  have hdot : ("." ++ pyLstripDot E).data = '.' :: (pyLstripDot E).data := rfl
  rw [mem_rglobT, hpat, hdot, globMatch_star ('.' :: (pyLstripDot E).data) hplain]

/-- Concrete instantiation of the amended C2 theorem: extension
`flac` on a root holding the single file `x.flac`. -/
theorem find_exactly_matching_descendant_paths_witness :
    plainExtChars "flac".data = true ∧
    (∃ l, find_files_by_extension "r" (some (.dir "r" (.cons (.file "x.flac") .nil))) "flac" =
        .ok l ∧
      ∀ p, p ∈ l ↔
        p ∈ FSTree.descPaths (.dir "r" (.cons (.file "x.flac") .nil)) ∧
          ("." ++ pyLstripDot "flac").data <:+ (pathName p).data) :=
  ⟨by decide,
   find_exactly_matching_descendant_paths "r" "r" (.cons (.file "x.flac") .nil) "flac"
     (by decide)⟩

/-! ### Run lemmas for `copy_files_to_directory` -/

theorem copy_files_cons_eq (env : CopyEnv) (st : DestState) (a : List String)
    (as : List (List String)) :
    copy_files_to_directory env st (a :: as) =
      match copyTryBody env st (a :: as) with
      | .ok (st2, c, e) => .ok (.completed c e, st2)
      | .error ex => .ok (.catastrophic ex, st) := rfl

theorem mkdirParents_ok (env : CopyEnv) (st : DestState)
    (h : st.destExists = true ∨ env.mkdirFails = false) :
    ∃ stM, mkdirParents env st = .ok stM ∧ stM.destExists = true ∧
      stM.contents = st.contents := by
  by_cases hd : st.destExists = true
  · refine ⟨st, ?_, hd, rfl⟩
    unfold mkdirParents
    rw [if_pos hd]
  · have hm : env.mkdirFails = false := by
      rcases h with h | h
      · exact absurd h hd
      · exact h
    refine ⟨{ st with destExists := true }, ?_, rfl, rfl⟩
    unfold mkdirParents
    rw [if_neg hd, if_neg (by simp [hm])]

theorem copy_files_run (env : CopyEnv) (st : DestState) (srcs : List (List String))
    (hne : srcs ≠ []) (stM : DestState) (hmk : mkdirParents env st = .ok stM) :
    copy_files_to_directory env st srcs =
      .ok (.completed (copyLoop env srcs stM 0 0).2.1 (copyLoop env srcs stM 0 0).2.2,
        (copyLoop env srcs stM 0 0).1) := by
  obtain ⟨a, as, rfl⟩ := List.exists_cons_of_ne_nil hne
  rw [copy_files_cons_eq]
  unfold copyTryBody
  rw [hmk]

theorem copy_files_mkdir_error (env : CopyEnv) (st : DestState) (srcs : List (List String))
    (hne : srcs ≠ []) (hmk : mkdirParents env st = .error .mkdirError) :
    copy_files_to_directory env st srcs = .ok (.catastrophic .mkdirError, st) := by
  obtain ⟨a, as, rfl⟩ := List.exists_cons_of_ne_nil hne
  rw [copy_files_cons_eq]
  unfold copyTryBody
  rw [hmk]

theorem successCount_add_failureCount (env : CopyEnv) (srcs : List (List String)) :
    successCount env srcs + failureCount env srcs = srcs.length := by
  have h := List.length_eq_length_filter_add (l := srcs) (fun s => !env.copy2Fails s)
  simp only [Bool.not_not] at h
  unfold successCount failureCount
  omega

/-! ### Concrete environments and states for witnesses -/

/-- Fault-free environment: `mkdir` and every `copy2` succeed. -/
def envOk : CopyEnv := ⟨false, fun _ => false⟩

/-- Environment in which `copy2` fails exactly on the source `bad`. -/
def envBad : CopyEnv := ⟨false, fun s => s = ["bad"]⟩

/-- Empty, not-yet-existing destination directory. -/
def destEmpty : DestState := ⟨false, fun _ => none⟩

/-! ### Claim theorems: the Copier -/

/-- C6: on an empty source list the function returns before touching
the filesystem: the destination state is returned unchanged (in
particular the destination directory is not created) and the outcome
is the no-sources message, which reports zero copies and zero
errors. -/
theorem copy_empty_no_mutation :
    ∀ (env : CopyEnv) (st : DestState),
      copy_files_to_directory env st [] = .ok (.noSources, st) ∧
      CopyOutcome.noSources.copiedCount = 0 ∧
      CopyOutcome.noSources.errorCount = 0 :=
  fun _ _ => ⟨rfl, rfl, rfl⟩

/-- C10: `copy_files_to_directory` never propagates an exception to
its caller: for every environment, state and source list the result
of the call is `.ok` — the early return and the outer
`except Exception` clause leave no escaping fault. -/
theorem copy_never_raises :
    ∀ (env : CopyEnv) (st : DestState) (srcs : List (List String)),
      ∃ r, copy_files_to_directory env st srcs = .ok r := by
  intro env st srcs
  unfold copy_files_to_directory
  split
  · exact ⟨_, rfl⟩
  · split <;> exact ⟨_, rfl⟩

/-- C1: on a non-empty source list the call always returns a result
(no exception escapes, in particular not for an item failure); when
the destination directory cannot be created, the whole operation
aborts — no item is attempted, the state is unchanged — and the run
surfaces the distinct catastrophic outcome; otherwise the run
completes reporting the final tallies of successes and failures,
which sum to the number of sources. -/
theorem copy_tallies_and_catastrophic_abort :
    ∀ (env : CopyEnv) (st : DestState) (srcs : List (List String)), srcs ≠ [] →
      (∃ r, copy_files_to_directory env st srcs = .ok r) ∧
      (st.destExists = false → env.mkdirFails = true →
        copy_files_to_directory env st srcs = .ok (.catastrophic .mkdirError, st)) ∧
      (st.destExists = true ∨ env.mkdirFails = false →
        ∃ st2, copy_files_to_directory env st srcs =
            .ok (.completed (successCount env srcs) (failureCount env srcs), st2) ∧
          successCount env srcs + failureCount env srcs = srcs.length) := by
  intro env st srcs hne
  refine ⟨?_, ?_, ?_⟩
  · unfold copy_files_to_directory
    split
    · exact ⟨_, rfl⟩
    · split <;> exact ⟨_, rfl⟩
  · intro hd hm
    have hmk : mkdirParents env st = .error .mkdirError := by
      unfold mkdirParents
      rw [if_neg (by simp [hd]), if_pos hm]
    exact copy_files_mkdir_error env st srcs hne hmk
  · intro hor
    obtain ⟨stM, hmk, hMd, hMc⟩ := mkdirParents_ok env st hor
    obtain ⟨hc, he⟩ := copyLoop_counts env srcs stM 0 0
    refine ⟨(copyLoop env srcs stM 0 0).1, ?_, successCount_add_failureCount env srcs⟩
    rw [copy_files_run env st srcs hne stM hmk, hc, he]
    simp

/-- C7: on a non-empty source list, whenever creating the destination
is possible — in particular whenever it already exists, which is not
an error — the run completes and the destination directory exists in
the final state. -/
theorem copy_ensures_destination :
    ∀ (env : CopyEnv) (st : DestState) (srcs : List (List String)), srcs ≠ [] →
      st.destExists = true ∨ env.mkdirFails = false →
      ∃ c e st2, copy_files_to_directory env st srcs = .ok (.completed c e, st2) ∧
        st2.destExists = true := by
  intro env st srcs hne hor
  obtain ⟨stM, hmk, hMd, hMc⟩ := mkdirParents_ok env st hor
  refine ⟨_, _, _, copy_files_run env st srcs hne stM hmk, ?_⟩
  rw [copyLoop_destExists]
  exact hMd

/-- C8: item failures are counted without aborting the loop: the run
reports exactly the number of succeeding items as copied and the
number of failing items as errors, the two summing to the number of
sources attempted, and after the run every non-failing item's
basename is present in the destination, written by a succeeding
source of that basename. -/
theorem copy_per_item_errors_counted :
    ∀ (env : CopyEnv) (st : DestState) (srcs : List (List String)), srcs ≠ [] →
      st.destExists = true ∨ env.mkdirFails = false →
      ∃ st2, copy_files_to_directory env st srcs =
          .ok (.completed (successCount env srcs) (failureCount env srcs), st2) ∧
        successCount env srcs + failureCount env srcs = srcs.length ∧
        ∀ src ∈ srcs, env.copy2Fails src = false →
          ∃ s2, st2.contents (pathName src) = some s2 ∧ pathName s2 = pathName src ∧
            env.copy2Fails s2 = false ∧ s2 ∈ srcs := by
  intro env st srcs hne hor
  obtain ⟨stM, hmk, hMd, hMc⟩ := mkdirParents_ok env st hor
  obtain ⟨hc, he⟩ := copyLoop_counts env srcs stM 0 0
  refine ⟨(copyLoop env srcs stM 0 0).1, ?_, successCount_add_failureCount env srcs, ?_⟩
  · rw [copy_files_run env st srcs hne stM hmk, hc, he]
    simp
  · intro src hmem hok
    obtain ⟨s2, hs2⟩ := lastWrite_isSome_of_mem env (pathName src) srcs src hmem rfl hok
    obtain ⟨h1, h2, h3⟩ := lastWrite_some_spec env (pathName src) srcs s2 hs2
    refine ⟨s2, ?_, h1, h2, h3⟩
    rw [copyLoop_contents, hs2]
    rfl

/-- C9: each source is written to the destination under its basename,
so of two same-basename entries the one later in iteration order wins:
if `b` comes after `a`, shares its basename, its copy succeeds and no
later same-basename copy succeeds, the destination file with that
basename finally holds `b`'s content. -/
theorem copy_later_basename_overwrites :
    ∀ (env : CopyEnv) (st : DestState) (xs ys zs : List (List String)) (a b : List String),
      pathName a = pathName b → env.copy2Fails b = false →
      (∀ z ∈ zs, pathName z = pathName b → env.copy2Fails z = true) →
      st.destExists = true ∨ env.mkdirFails = false →
      ∃ c e st2,
        copy_files_to_directory env st (xs ++ a :: ys ++ b :: zs) =
          .ok (.completed c e, st2) ∧
        st2.contents (pathName b) = some b := by
  intro env st xs ys zs a b hab hbok hzs hor
  obtain ⟨stM, hmk, hMd, hMc⟩ := mkdirParents_ok env st hor
  have hlast : lastWrite env (xs ++ a :: ys ++ b :: zs) (pathName b) = some b := by
    have hz : lastWrite env zs (pathName b) = none :=
      lastWrite_none_of_all_fail env (pathName b) zs hzs
    have hbz : lastWrite env (b :: zs) (pathName b) = some b := by
      simp [lastWrite, hz, orElseOpt, hbok]
    have h1 : lastWrite env ((a :: ys) ++ b :: zs) (pathName b) = some b := by
      rw [lastWrite_append, hbz]
      rfl
    have h2 : xs ++ a :: ys ++ b :: zs = xs ++ ((a :: ys) ++ b :: zs) := by
      simp
    rw [h2, lastWrite_append, h1]
    rfl
  refine ⟨_, _, _, copy_files_run env st _ (by simp) stM hmk, ?_⟩
  rw [copyLoop_contents, hlast]
  rfl

/-- Concrete instantiation of the C1 theorem: one source file, a
fault-free environment and a not-yet-existing destination. -/
theorem copy_tallies_and_catastrophic_abort_witness :
    ([["a", "x.flac"]] : List (List String)) ≠ [] ∧
    ((∃ r, copy_files_to_directory envOk destEmpty [["a", "x.flac"]] = .ok r) ∧
      (destEmpty.destExists = false → envOk.mkdirFails = true →
        copy_files_to_directory envOk destEmpty [["a", "x.flac"]] =
          .ok (.catastrophic .mkdirError, destEmpty)) ∧
      (destEmpty.destExists = true ∨ envOk.mkdirFails = false →
        ∃ st2, copy_files_to_directory envOk destEmpty [["a", "x.flac"]] =
            .ok (.completed (successCount envOk [["a", "x.flac"]])
              (failureCount envOk [["a", "x.flac"]]), st2) ∧
          successCount envOk [["a", "x.flac"]] + failureCount envOk [["a", "x.flac"]] =
            ([["a", "x.flac"]] : List (List String)).length)) :=
  ⟨by simp, copy_tallies_and_catastrophic_abort envOk destEmpty [["a", "x.flac"]] (by simp)⟩

/-- Concrete instantiation of the C7 theorem: the fault-free run on a
missing destination creates it. -/
theorem copy_ensures_destination_witness :
    ([["a", "x.flac"]] : List (List String)) ≠ [] ∧
    (destEmpty.destExists = true ∨ envOk.mkdirFails = false) ∧
    (∃ c e st2, copy_files_to_directory envOk destEmpty [["a", "x.flac"]] =
        .ok (.completed c e, st2) ∧ st2.destExists = true) :=
  ⟨by simp, Or.inr rfl,
   copy_ensures_destination envOk destEmpty [["a", "x.flac"]] (by simp) (Or.inr rfl)⟩

/-- Concrete instantiation of the C8 theorem: one good source and one
source the environment makes fail. -/
theorem copy_per_item_errors_counted_witness :
    ([["good", "g.flac"], ["bad"]] : List (List String)) ≠ [] ∧
    (destEmpty.destExists = true ∨ envBad.mkdirFails = false) ∧
    (∃ st2, copy_files_to_directory envBad destEmpty [["good", "g.flac"], ["bad"]] =
        .ok (.completed (successCount envBad [["good", "g.flac"], ["bad"]])
          (failureCount envBad [["good", "g.flac"], ["bad"]]), st2) ∧
      successCount envBad [["good", "g.flac"], ["bad"]] +
          failureCount envBad [["good", "g.flac"], ["bad"]] =
        ([["good", "g.flac"], ["bad"]] : List (List String)).length ∧
      ∀ src ∈ ([["good", "g.flac"], ["bad"]] : List (List String)),
        envBad.copy2Fails src = false →
        ∃ s2, st2.contents (pathName src) = some s2 ∧ pathName s2 = pathName src ∧
          envBad.copy2Fails s2 = false ∧
          s2 ∈ ([["good", "g.flac"], ["bad"]] : List (List String))) :=
  ⟨by simp, Or.inr rfl,
   copy_per_item_errors_counted envBad destEmpty [["good", "g.flac"], ["bad"]]
     (by simp) (Or.inr rfl)⟩

/-- Concrete instantiation of the C9 theorem: two sources sharing the
basename `s.flac`; the later one ends up in the destination. -/
theorem copy_later_basename_overwrites_witness :
    pathName ["a", "s.flac"] = pathName ["b", "s.flac"] ∧
    envOk.copy2Fails ["b", "s.flac"] = false ∧
    (∃ c e st2,
      copy_files_to_directory envOk destEmpty
          ([] ++ ["a", "s.flac"] :: [] ++ ["b", "s.flac"] :: []) =
        .ok (.completed c e, st2) ∧
      st2.contents (pathName ["b", "s.flac"]) = some ["b", "s.flac"]) :=
  ⟨rfl, rfl,
   copy_later_basename_overwrites envOk destEmpty [] [] [] ["a", "s.flac"] ["b", "s.flac"]
     rfl rfl (by simp) (Or.inr rfl)⟩
